import Mathlib

/-!
# camera_observer: the fault observer and the restart sequence

Shallow embedding of `internal/observer/manager.go` (`Manager.HandleMessage`)
and of `internal/smartthings/client.go` (`Client.RestartDevice`).

Modelling conventions.

* Go maps that are only looked up (`mapping`, `cooldowns`) are total functions
  into `Option`; `none` is the `exists == false` / `found == false` result of the
  two-valued lookup.  Assignment `m[k] = v` is `setKey`.
* The decoded `Cameras` map is iterated with `range`, so it is a list of
  `(key, value)` pairs in the order in which the runtime visits them.  A Go map
  holds each key once: theorems that need this carry the hypothesis
  `(cams.map Prod.fst).Nodup`.
* Instants are integers: nanoseconds on the monotonic clock that `time.Now` and
  `time.Since` read.  `time.Since lastRun` is `now - lastRun`, a `time.Duration`
  in nanoseconds; differences of monotonic readings stay far inside its `int64`
  range.  In the sequential model one invocation of `HandleMessage` runs at one
  instant `now`: the handler is synchronous and brief, and the clock reads of
  `manager.go:69` and `manager.go:76` are identified.  The model of overlapping
  invocations reads the clock at each statement.
* `camera_fps` is a `float64` decoded from a JSON number, hence finite; it is
  only ever compared with `0`, and is represented by the rational it denotes.
* `json.Unmarshal` and the HTTP round trip of `sendCommand` belong to the
  environment: the decoder is a parameter of `HandleMessage`, and the answer of
  the remote API to a command is a parameter of `sendCommand`.
* `go func(cam, dev) ...` is recorded as a `Dispatch` appended to the list of
  goroutines started by the call.
-/

namespace CameraObserver

/-- Go `error` values are represented by their message. -/
abbrev Error := String

/-- An instant of the monotonic clock, in nanoseconds. -/
abbrev Time := Int

/-- The constant `5*time.Minute` of `manager.go:69`, a `time.Duration` in nanoseconds. -/
def cooldownWindow : Int := 5 * (60 * 1000000000)

/-- Go `CameraStats` (`manager.go:12`). -/
structure CameraStats where
  CameraFPS : ℚ
  PID : Int

/-- Go `StatsPayload` (`manager.go:18`): the `cameras` map in iteration order. -/
structure StatsPayload where
  Cameras : List (String × CameraStats)

/-- Go `Manager` (`manager.go:22`), without the client handle and the mutex. -/
structure Manager where
  mapping : String → Option String
  cooldowns : String → Option Time

/-- One goroutine started at `manager.go:80`, with its two arguments. -/
structure Dispatch where
  cam : String
  dev : String
deriving DecidableEq, Repr

/-- Map assignment `m[k] = v`. -/
def setKey {α : Type} (m : String → Option α) (k : String) (v : α) : String → Option α :=
  fun x => if x = k then some v else m x

/-- Go `NewManager` (`manager.go:29`): the registry starts as an empty map. -/
def NewManager (mapping : String → Option String) : Manager :=
  { mapping := mapping, cooldowns := fun _ => none }

/-- The condition of `manager.go:69`:
`found && time.Since(lastRun) < 5*time.Minute`. -/
def onCooldown (now : Time) (entry : Option Time) : Bool :=
  match entry with
  | none => false
  | some lastRun => decide (now - lastRun < cooldownWindow)

/-- The body of the `for cameraID, stats := range data.Cameras` loop
(`manager.go:49-89`): the manager after the iteration and the goroutines it
started. -/
def evalCamera (now : Time) (m : Manager) (cameraID : String) (stats : CameraStats) :
    Manager × List Dispatch :=
  if stats.CameraFPS > 0 then (m, [])
  else
    match m.mapping cameraID with
    | none => (m, [])
    | some switchID =>
      if onCooldown now (m.cooldowns cameraID) then (m, [])
      else ({ m with cooldowns := setKey m.cooldowns cameraID now }, [⟨cameraID, switchID⟩])

/-- The `range` loop of `manager.go:49-89` over the entries in visiting order;
`acc` holds the goroutines started so far. -/
def rangeCameras (now : Time) (m : Manager) (acc : List Dispatch) :
    List (String × CameraStats) → Manager × List Dispatch
  | [] => (m, acc)
  | (cameraID, stats) :: rest =>
    let r := evalCamera now m cameraID stats
    rangeCameras now r.1 (acc ++ r.2) rest

/-- Go `Manager.HandleMessage` (`manager.go:38`).  `unmarshal` is
`json.Unmarshal` into a `StatsPayload`; `now` is the instant of the call.  The
result is the manager after the call and the goroutines started, in order. -/
def HandleMessage (unmarshal : List UInt8 → Except Error StatsPayload) (now : Time)
    (m : Manager) (_topic : String) (payload : List UInt8) : Manager × List Dispatch :=
  match unmarshal payload with
  | .error _ => (m, [])
  | .ok data => rangeCameras now m [] data.Cameras

/-- The goroutines of a call that were started for entity `cam`. -/
def dispatchesFor (cam : String) (ds : List Dispatch) : List Dispatch :=
  ds.filter (fun d => decide (d.cam = cam))

/-- One message handed to the handler by the subscription callback
(`mqtt/client.go:38`): the instant of the call, the topic and the payload. -/
structure Delivery where
  time : Time
  topic : String
  payload : List UInt8

/-- The handler called once per delivered message, in delivery order, on the
same `Manager`: the manager after the last call and every goroutine started,
each with the instant of the call that started it. -/
def handleAll (unmarshal : List UInt8 → Except Error StatsPayload) (m : Manager) :
    List Delivery → Manager × List (Time × Dispatch)
  | [] => (m, [])
  | d :: rest =>
    let r := HandleMessage unmarshal d.time m d.topic d.payload
    let r' := handleAll unmarshal r.1 rest
    (r'.1, r.2.map (fun x => (d.time, x)) ++ r'.2)

/-- The timed goroutines that were started for entity `cam`. -/
def timedDispatchesFor (cam : String) (ds : List (Time × Dispatch)) : List (Time × Dispatch) :=
  ds.filter (fun d => decide (d.2.cam = cam))

/-- No two goroutines started for one entity are less than the window apart. -/
def entityThrottled (trace : List (Time × Dispatch)) : Prop :=
  trace.Pairwise (fun a b => a.2.cam = b.2.cam → cooldownWindow ≤ b.1 - a.1)

/-- No two goroutines targeting one device are less than the window apart. -/
def deviceThrottled (trace : List (Time × Dispatch)) : Prop :=
  trace.Pairwise (fun a b => a.2.dev = b.2.dev → cooldownWindow ≤ |b.1 - a.1|)

/-- No two keys of the mapping share a device. -/
def injectiveMapping (mapping : String → Option String) : Prop :=
  ∀ a b dev, mapping a = some dev → mapping b = some dev → a = b

/-- The invariant behind the per-entity throttle: the trace is throttled per
entity, and the registry entry of every entity in the trace is at least as new
as each of its dispatches. -/
def TraceInv (m : Manager) (T : List (Time × Dispatch)) : Prop :=
  entityThrottled T ∧
    ∀ td ∈ T, ∃ last, m.cooldowns td.2.cam = some last ∧ td.1 ≤ last

/-- A decoder for worked examples: five byte strings stand for five snapshots,
every other payload is rejected. -/
def sampleUnmarshal (payload : List UInt8) : Except Error StatsPayload :=
  if payload = [1] then .ok ⟨[("front", ⟨0, 42⟩)]⟩
  else if payload = [2] then .ok ⟨[("front", ⟨25 / 2, 42⟩)]⟩
  else if payload = [3] then .ok ⟨[("front", ⟨0, 42⟩), ("back", ⟨0, 43⟩)]⟩
  else if payload = [4] then .ok ⟨[("back", ⟨0, 43⟩), ("front", ⟨0, 42⟩)]⟩
  else if payload = [5] then .ok ⟨[("back", ⟨0, 43⟩)]⟩
  else .error "invalid character looking for beginning of value"

/-- The mapping `front -> switch-1` of the end-to-end scenarios. -/
def sampleMapping : String → Option String :=
  fun k => if k = "front" then some "switch-1" else none

/-- A mapping in which two cameras are plugged into one switch. -/
def sharedMapping : String → Option String :=
  fun k => if k = "front" ∨ k = "back" then some "switch-1" else none

/-- For each entry of the two-camera sample snapshot, a payload that decodes to
that entry alone. -/
def sampleSingle (p : String × CameraStats) : List UInt8 :=
  if p.1 = "front" then [1] else [5]

/-! ### The device control client (`internal/smartthings/client.go`) -/

/-- The constant `BaseURL` of `client.go:12`. -/
def BaseURL : String := "https://api.smartthings.com/v1"

/-- The network as `sendCommand` sees it. -/
structure Http where
  /-- The error of `http.NewRequest "POST" url body` (`client.go:69`), `none` for nil. -/
  newRequest : String → Option Error
  /-- The result of `HttpClient.Do` (`client.go:77`) for the POST of a command to a
  URL: a transport error, or the status code of the response. -/
  roundTrip : String → String → Except Error Nat

/-- What a run of the client does, as seen from outside. -/
inductive Effect where
  /-- A call `sendCommand(deviceID, cmd)`. -/
  | command (deviceID cmd : String)
  /-- A call `time.Sleep(d)`, `d` in nanoseconds. -/
  | sleep (d : Int)
deriving DecidableEq, Repr

/-- The URL built at `client.go:69`. -/
def commandURL (deviceID : String) : String :=
  BaseURL ++ "/devices/" ++ deviceID ++ "/commands"

/-- The error returned by `sendCommand` (`client.go:52-88`), `none` for nil.
`json.Marshal` of a `CommandRequest` cannot fail, so that branch is left out. -/
def commandOutcome (http : Http) (deviceID cmd : String) : Option Error :=
  match http.newRequest (commandURL deviceID) with
  | some err => some ("failed to create request: " ++ err)
  | none =>
    match http.roundTrip (commandURL deviceID) cmd with
    | .error err => some ("network error sending command: " ++ err)
    | .ok status =>
      if status ≠ 200 then some ("api returned non-200 status: " ++ toString status)
      else none

/-- Go `Client.sendCommand` (`client.go:52`): the call is appended to the log of
effects, and its error is returned. -/
def sendCommand (http : Http) (deviceID cmd : String) (log : List Effect) :
    Option Error × List Effect :=
  (commandOutcome http deviceID cmd, log ++ [Effect.command deviceID cmd])

/-- The constant `10 * time.Second` of `client.go:125`, in nanoseconds. -/
def settleDelay : Int := 10 * 1000000000

/-- Go `Client.RestartDevice` (`client.go:118`): the error returned, `none` for
nil, and the log of effects after the call. -/
def RestartDevice (http : Http) (deviceID : String) (log : List Effect) :
    Option Error × List Effect :=
  match sendCommand http deviceID "off" log with
  | (some err, log1) => (some err, log1)
  | (none, log1) =>
    match sendCommand http deviceID "on" (log1 ++ [Effect.sleep settleDelay]) with
    | (some err, log2) => (some err, log2)
    | (none, log2) => (none, log2)

/-- The commands of a log, in order, as `(deviceID, command)` pairs. -/
def commandsIssued (log : List Effect) : List (String × String) :=
  log.filterMap (fun e =>
    match e with
    | Effect.command d c => some (d, c)
    | Effect.sleep _ => none)

/-! ### Overlapping invocations of the handler

The subscription callback may run several invocations of `HandleMessage` on one
`Manager` at once.  They are modelled as threads of a transition system whose
steps are the statements of the loop body that touch shared state; a schedule
picks, step by step, the thread that moves and the time that has passed on the
monotonic clock. -/

/-- Where a thread stands in `HandleMessage`, with the locals it has set. -/
inductive Pc where
  /-- At the loop head, `manager.go:49`. -/
  | top
  /-- Before `m.mu.Lock()`, `manager.go:67`. -/
  | lock (cam dev : String)
  /-- Holding the mutex, before the lookup of `manager.go:68`. -/
  | read (cam dev : String)
  /-- Holding the mutex, before the test of `manager.go:69`, with the result of
  the lookup. -/
  | check (cam dev : String) (entry : Option Time)
  /-- Holding the mutex, before the `m.mu.Unlock()` of `manager.go:73`. -/
  | unlockSkip (cam dev : String)
  /-- Holding the mutex, before the assignment of `manager.go:76`. -/
  | store (cam dev : String)
  /-- Holding the mutex, before the `m.mu.Unlock()` of `manager.go:77`; `t` is
  the instant just stored. -/
  | unlockGo (cam dev : String) (t : Time)
  /-- Before the `go` statement of `manager.go:80`; `t` is the instant stored. -/
  | spawn (cam dev : String) (t : Time)

/-- One invocation of `HandleMessage`: the entries of its snapshot still to
visit, and its position. -/
structure Thread where
  todo : List (String × CameraStats)
  pc : Pc

/-- The `Manager` shared by the invocations, the invocations, the clock, and
the goroutines started so far, each with the instant its invocation stored in
the registry. -/
structure System where
  mapping : String → Option String
  cooldowns : String → Option Time
  mu : Option Nat
  clock : Time
  threads : Nat → Thread
  started : List (Time × Dispatch)

/-- Replace the state of thread `i`. -/
def System.setThread (s : System) (i : Nat) (th : Thread) : System :=
  { s with threads := fun j => if j = i then th else s.threads j }

/-- Time passes. -/
def tick (s : System) (dt : Nat) : System :=
  { s with clock := s.clock + dt }

/-- Thread `i` executes its next statement; a thread that has returned, or that
waits for the mutex, stays where it is. -/
def act (s : System) (i : Nat) : System :=
  match (s.threads i).pc with
  | Pc.top =>
    match (s.threads i).todo with
    | [] => s
    | (cameraID, stats) :: rest =>
      if stats.CameraFPS > 0 then s.setThread i ⟨rest, Pc.top⟩
      else
        match s.mapping cameraID with
        | none => s.setThread i ⟨rest, Pc.top⟩
        | some switchID => s.setThread i ⟨rest, Pc.lock cameraID switchID⟩
  | Pc.lock c d =>
    match s.mu with
    | some _ => s
    | none => ({ s with mu := some i }).setThread i ⟨(s.threads i).todo, Pc.read c d⟩
  | Pc.read c d => s.setThread i ⟨(s.threads i).todo, Pc.check c d (s.cooldowns c)⟩
  | Pc.check c d entry =>
    if onCooldown s.clock entry then s.setThread i ⟨(s.threads i).todo, Pc.unlockSkip c d⟩
    else s.setThread i ⟨(s.threads i).todo, Pc.store c d⟩
  | Pc.unlockSkip _ _ => ({ s with mu := none }).setThread i ⟨(s.threads i).todo, Pc.top⟩
  | Pc.store c d =>
    ({ s with cooldowns := setKey s.cooldowns c s.clock }).setThread i
      ⟨(s.threads i).todo, Pc.unlockGo c d s.clock⟩
  | Pc.unlockGo c d t =>
    ({ s with mu := none }).setThread i ⟨(s.threads i).todo, Pc.spawn c d t⟩
  | Pc.spawn c d t =>
    ({ s with started := s.started ++ [(t, Dispatch.mk c d)] }).setThread i
      ⟨(s.threads i).todo, Pc.top⟩

/-- One step of a schedule: `dt` nanoseconds pass, then thread `i` moves. -/
def step (s : System) (i : Nat) (dt : Nat) : System :=
  act (tick s dt) i

/-- A schedule, run from a state. -/
def run (s : System) : List (Nat × Nat) → System
  | [] => s
  | (i, dt) :: rest => run (step s i dt) rest

/-- Invocation `i` was handed `payloads i`; every invocation is at the first
statement after decoding, the mutex is free and nothing was started yet. -/
def initSystem (unmarshal : List UInt8 → Except Error StatsPayload) (m : Manager)
    (clock : Time) (payloads : Nat → List UInt8) : System :=
  { mapping := m.mapping
    cooldowns := m.cooldowns
    mu := none
    clock := clock
    threads := fun i =>
      match unmarshal (payloads i) with
      | .error _ => ⟨[], Pc.top⟩
      | .ok data => ⟨data.Cameras, Pc.top⟩
    started := [] }

/-- Two timed goroutines for one entity are at least the window apart. -/
def Apart (a b : Time × Dispatch) : Prop :=
  a.2.cam = b.2.cam → cooldownWindow ≤ |b.1 - a.1|

/-- Whether a position is between `m.mu.Lock()` and `m.mu.Unlock()`. -/
def inCrit : Pc → Bool
  | Pc.read _ _ => true
  | Pc.check _ _ _ => true
  | Pc.unlockSkip _ _ => true
  | Pc.store _ _ => true
  | Pc.unlockGo _ _ _ => true
  | _ => false

/-- The goroutine a thread has decided to start and not started yet. -/
def pending : Pc → Option (Time × Dispatch)
  | Pc.unlockGo c d t => some (t, ⟨c, d⟩)
  | Pc.spawn c d t => some (t, ⟨c, d⟩)
  | _ => none

/-- A network on which every request is answered, "off" with status 500 and
any other command with status 200. -/
def sampleHttp : Http :=
  { newRequest := fun _ => none
    roundTrip := fun _ cmd => if cmd = "off" then .ok 500 else .ok 200 }

/-- Two overlapping invocations: invocation 0 was handed a snapshot with `front`
at 0 fps, invocation 1 one with `front` and `back` at 0 fps; every other
invocation was handed a payload that does not decode. -/
def samplePayloads (i : Nat) : List UInt8 :=
  if i = 0 then [1] else if i = 1 then [3] else [7]

/-- A schedule in which invocation 1 asks for the mutex while invocation 0 holds
it, one nanosecond passing at each step. -/
def sampleSchedule : List (Nat × Nat) :=
  [(0, 1), (1, 1), (0, 1), (1, 1), (0, 1), (1, 1), (0, 1), (0, 1), (0, 1), (1, 1), (1, 1),
    (1, 1), (1, 1), (0, 1), (1, 1), (1, 1)]

/-- The invariant of the transition system.  A thread between `Lock` and
`Unlock` holds the mutex; the lookup result a thread holds is the registry
entry; a thread about to store has passed the test against the present entry;
every goroutine decided so far, started or not, is no newer than the registry
entry of its entity; and the goroutines decided so far are pairwise apart. -/
structure Inv (s : System) : Prop where
  mutex : ∀ i, inCrit (s.threads i).pc = true → s.mu = some i
  checked : ∀ i c d e, (s.threads i).pc = Pc.check c d e → e = s.cooldowns c
  passed : ∀ i c d, (s.threads i).pc = Pc.store c d →
    onCooldown s.clock (s.cooldowns c) = false
  startedReg : ∀ e ∈ s.started, ∃ last, s.cooldowns e.2.cam = some last ∧ e.1 ≤ last
  pendingReg : ∀ i e, pending (s.threads i).pc = some e →
    ∃ last, s.cooldowns e.2.cam = some last ∧ e.1 ≤ last
  apartStarted : s.started.Pairwise Apart
  apartMixed : ∀ e ∈ s.started, ∀ i e', pending (s.threads i).pc = some e' → Apart e e'
  apartPending : ∀ i j e e', i ≠ j → pending (s.threads i).pc = some e →
    pending (s.threads j).pc = some e' → Apart e e'

/-! ## The loop body -/

theorem evalCamera_mapping (now : Time) (m : Manager) (c : String) (s : CameraStats) :
    (evalCamera now m c s).1.mapping = m.mapping := by
  unfold evalCamera
  split
  · rfl
  · split
    · rfl
    · split <;> rfl

theorem evalCamera_healthy (now : Time) (m : Manager) (c : String) (s : CameraStats)
    (h : s.CameraFPS > 0) : evalCamera now m c s = (m, []) := by
  unfold evalCamera
  rw [if_pos h]

theorem evalCamera_unmapped (now : Time) (m : Manager) (c : String) (s : CameraStats)
    (h : m.mapping c = none) : evalCamera now m c s = (m, []) := by
  unfold evalCamera
  split
  · rfl
  · rw [h]

theorem evalCamera_suppressed (now : Time) (m : Manager) (c : String) (s : CameraStats)
    (h : onCooldown now (m.cooldowns c) = true) : evalCamera now m c s = (m, []) := by
  unfold evalCamera
  split
  · rfl
  · split
    · rfl
    · simp [h]

theorem evalCamera_fires (now : Time) (m : Manager) (c dev : String) (s : CameraStats)
    (hfps : s.CameraFPS ≤ 0) (hmap : m.mapping c = some dev)
    (hcd : onCooldown now (m.cooldowns c) = false) :
    evalCamera now m c s =
      ({ m with cooldowns := setKey m.cooldowns c now }, [⟨c, dev⟩]) := by
  unfold evalCamera
  rw [if_neg (not_lt.mpr hfps), hmap]
  simp [hcd]

/-- Every goroutine started by one iteration carries the iteration's key. -/
theorem evalCamera_cam (now : Time) (m : Manager) (c : String) (s : CameraStats) :
    ∀ d ∈ (evalCamera now m c s).2, d.cam = c := by
  unfold evalCamera
  split
  · simp
  · split
    · simp
    · split <;> simp

/-- Every goroutine started by one iteration targets the switch the mapping gives. -/
theorem evalCamera_dev (now : Time) (m : Manager) (c : String) (s : CameraStats) :
    ∀ d ∈ (evalCamera now m c s).2, m.mapping d.cam = some d.dev := by
  unfold evalCamera
  split
  · simp
  · split
    · simp
    · rename_i sw hsw
      split <;> simp [hsw]

/-- One iteration touches no registry entry but its own key's. -/
theorem evalCamera_cooldowns_other (now : Time) (m : Manager) (c cam : String)
    (s : CameraStats) (h : cam ≠ c) :
    (evalCamera now m c s).1.cooldowns cam = m.cooldowns cam := by
  unfold evalCamera
  split
  · rfl
  · split
    · rfl
    · split
      · rfl
      · simp [setKey, h]

/-- The registry entry of a key after one iteration is the old one or `now`. -/
theorem evalCamera_cooldowns_cases (now : Time) (m : Manager) (c cam : String)
    (s : CameraStats) :
    (evalCamera now m c s).1.cooldowns cam = m.cooldowns cam ∨
      ((evalCamera now m c s).1.cooldowns cam = some now ∧
        onCooldown now (m.cooldowns cam) = false) := by
  unfold evalCamera
  split
  · exact Or.inl rfl
  · split
    · exact Or.inl rfl
    · split
      · exact Or.inl rfl
      · rename_i hcd
        by_cases hc : cam = c
        · subst hc
          right
          exact ⟨by simp [setKey], by simpa using hcd⟩
        · left
          simp [setKey, hc]

/-- What one iteration does for its key is a function of the key's frame rate,
mapping entry and registry entry alone. -/
theorem evalCamera_local (now : Time) (m m' : Manager) (c : String) (s s' : CameraStats)
    (hfps : s.CameraFPS = s'.CameraFPS) (hmap : m.mapping c = m'.mapping c)
    (hcd : m.cooldowns c = m'.cooldowns c) :
    (evalCamera now m c s).2 = (evalCamera now m' c s').2 ∧
      (evalCamera now m c s).1.cooldowns c = (evalCamera now m' c s').1.cooldowns c := by
  unfold evalCamera
  rw [hfps, hmap, hcd]
  split
  · exact ⟨rfl, hcd⟩
  · split
    · exact ⟨rfl, hcd⟩
    · split
      · exact ⟨rfl, hcd⟩
      · exact ⟨rfl, by simp [setKey]⟩

/-! ## The loop -/

theorem rangeCameras_acc (now : Time) (l : List (String × CameraStats)) :
    ∀ (m : Manager) (acc : List Dispatch),
      rangeCameras now m acc l =
        ((rangeCameras now m [] l).1, acc ++ (rangeCameras now m [] l).2) := by
  induction l with
  | nil => intro m acc; simp [rangeCameras]
  | cons p rest ih =>
    intro m acc
    obtain ⟨c, s⟩ := p
    simp only [rangeCameras]
    rw [ih (evalCamera now m c s).1 (acc ++ (evalCamera now m c s).2),
      ih (evalCamera now m c s).1 ([] ++ (evalCamera now m c s).2)]
    simp [List.append_assoc]

/-- One unfolding of the loop. -/
theorem rangeCameras_cons (now : Time) (m : Manager) (c : String) (s : CameraStats)
    (rest : List (String × CameraStats)) :
    rangeCameras now m [] ((c, s) :: rest) =
      ((rangeCameras now (evalCamera now m c s).1 [] rest).1,
        (evalCamera now m c s).2 ++ (rangeCameras now (evalCamera now m c s).1 [] rest).2) := by
  simp only [rangeCameras]
  rw [rangeCameras_acc]
  simp

theorem rangeCameras_mapping (now : Time) (l : List (String × CameraStats)) :
    ∀ m : Manager, (rangeCameras now m [] l).1.mapping = m.mapping := by
  induction l with
  | nil => intro m; rfl
  | cons p rest ih =>
    intro m
    obtain ⟨c, s⟩ := p
    rw [rangeCameras_cons]
    simp only
    rw [ih, evalCamera_mapping]

theorem dispatchesFor_append (cam : String) (a b : List Dispatch) :
    dispatchesFor cam (a ++ b) = dispatchesFor cam a ++ dispatchesFor cam b := by
  simp [dispatchesFor]

theorem dispatchesFor_evalCamera_self (now : Time) (m : Manager) (c : String)
    (s : CameraStats) : dispatchesFor c (evalCamera now m c s).2 = (evalCamera now m c s).2 := by
  unfold dispatchesFor
  rw [List.filter_eq_self]
  intro d hd
  simp [evalCamera_cam now m c s d hd]

theorem dispatchesFor_evalCamera_other (now : Time) (m : Manager) (c cam : String)
    (s : CameraStats) (h : cam ≠ c) : dispatchesFor cam (evalCamera now m c s).2 = [] := by
  unfold dispatchesFor
  rw [List.filter_eq_nil_iff]
  intro d hd
  have := evalCamera_cam now m c s d hd
  simp [this, Ne.symm h]

/-- An entity that is not a key of the snapshot is left alone by the loop. -/
theorem rangeCameras_absent (now : Time) (cam : String) (l : List (String × CameraStats)) :
    ∀ m : Manager, cam ∉ l.map Prod.fst →
      (rangeCameras now m [] l).1.cooldowns cam = m.cooldowns cam ∧
        dispatchesFor cam (rangeCameras now m [] l).2 = [] := by
  induction l with
  | nil => intro m _; exact ⟨rfl, rfl⟩
  | cons p rest ih =>
    intro m hnot
    obtain ⟨c, s⟩ := p
    have hne : cam ≠ c := by
      intro h; apply hnot; simp [h]
    have hrest : cam ∉ rest.map Prod.fst := by
      intro h; apply hnot; simp only [List.map_cons, List.mem_cons]; exact Or.inr h
    rw [rangeCameras_cons]
    obtain ⟨h1, h2⟩ := ih (evalCamera now m c s).1 hrest
    refine ⟨?_, ?_⟩
    · simp only
      rw [h1, evalCamera_cooldowns_other now m c cam s hne]
    · simp only
      rw [dispatchesFor_append, h2, dispatchesFor_evalCamera_other now m c cam s hne]
      rfl

/-- With each key held once, what the loop does for an entity of the snapshot
is what the loop body does for it on the manager the loop started from. -/
theorem rangeCameras_entry (now : Time) (cam : String) (st : CameraStats)
    (l : List (String × CameraStats)) :
    ∀ m : Manager, (l.map Prod.fst).Nodup → (cam, st) ∈ l →
      (rangeCameras now m [] l).1.cooldowns cam = (evalCamera now m cam st).1.cooldowns cam ∧
        dispatchesFor cam (rangeCameras now m [] l).2 = (evalCamera now m cam st).2 := by
  induction l with
  | nil => intro m _ h; simp at h
  | cons p rest ih =>
    intro m hnd hmem
    obtain ⟨c, s⟩ := p
    simp only [List.map_cons, List.nodup_cons] at hnd
    obtain ⟨hc, hnd'⟩ := hnd
    rw [rangeCameras_cons]
    simp only [List.mem_cons] at hmem
    rcases hmem with heq | hin
    · have h1 : cam = c := congrArg Prod.fst heq
      have h2 : st = s := congrArg Prod.snd heq
      subst h1; subst h2
      obtain ⟨a1, a2⟩ := rangeCameras_absent now cam rest (evalCamera now m cam st).1 hc
      refine ⟨?_, ?_⟩
      · simp only
        rw [a1]
      · simp only
        rw [dispatchesFor_append, a2, dispatchesFor_evalCamera_self]
        simp
    · have hne : cam ≠ c := by
        intro h
        apply hc
        rw [← h]
        exact List.mem_map_of_mem Prod.fst hin
      obtain ⟨b1, b2⟩ := ih (evalCamera now m c s).1 hnd' hin
      have hloc := evalCamera_local now (evalCamera now m c s).1 m cam st st rfl
        (by rw [evalCamera_mapping]) (evalCamera_cooldowns_other now m c cam s hne)
      refine ⟨?_, ?_⟩
      · simp only
        rw [b1, hloc.2]
      · simp only
        rw [dispatchesFor_append, b2, dispatchesFor_evalCamera_other now m c cam s hne, hloc.1]
        rfl

/-- Without any assumption on the keys: a registry entry after the loop is the
one before it, or `now` when the one before it was outside the window. -/
theorem rangeCameras_cooldowns_cases (now : Time) (cam : String)
    (l : List (String × CameraStats)) :
    ∀ m : Manager,
      (rangeCameras now m [] l).1.cooldowns cam = m.cooldowns cam ∨
        ((rangeCameras now m [] l).1.cooldowns cam = some now ∧
          onCooldown now (m.cooldowns cam) = false) := by
  induction l with
  | nil => intro m; exact Or.inl rfl
  | cons p rest ih =>
    intro m
    obtain ⟨c, s⟩ := p
    rw [rangeCameras_cons]
    simp only
    rcases evalCamera_cooldowns_cases now m c cam s with h0 | ⟨h0, h0c⟩
    · rcases ih (evalCamera now m c s).1 with h1 | ⟨h1, h1c⟩
      · left; rw [h1, h0]
      · right; exact ⟨h1, by rw [← h0]; exact h1c⟩
    · rcases ih (evalCamera now m c s).1 with h1 | ⟨h1, _⟩
      · right; exact ⟨by rw [h1, h0], h0c⟩
      · right; exact ⟨h1, h0c⟩

/-- With each key held once, the goroutines started by the loop are, entity by
entity and in visiting order, those the loop body starts on the manager the
loop started from. -/
theorem rangeCameras_flatMap_aux (now : Time) (m : Manager)
    (l : List (String × CameraStats)) :
    ∀ m' : Manager, m'.mapping = m.mapping →
      (∀ k ∈ l.map Prod.fst, m'.cooldowns k = m.cooldowns k) →
      (l.map Prod.fst).Nodup →
      (rangeCameras now m' [] l).2 = l.flatMap (fun p => (evalCamera now m p.1 p.2).2) := by
  induction l with
  | nil => intro m' _ _ _; rfl
  | cons p rest ih =>
    intro m' hmap hcd hnd
    obtain ⟨c, s⟩ := p
    simp only [List.map_cons, List.nodup_cons] at hnd
    obtain ⟨hc, hnd'⟩ := hnd
    rw [rangeCameras_cons, List.flatMap_cons]
    simp only
    have hloc := evalCamera_local now m' m c s s rfl (by rw [hmap])
      (hcd c (by simp))
    rw [hloc.1]
    congr 1
    apply ih (evalCamera now m' c s).1
    · rw [evalCamera_mapping, hmap]
    · intro k hk
      have hne : k ≠ c := by
        intro h; apply hc; rw [← h]; exact hk
      rw [evalCamera_cooldowns_other now m' c k s hne]
      exact hcd k (by simp only [List.map_cons, List.mem_cons]; exact Or.inr hk)
    · exact hnd'

theorem rangeCameras_flatMap (now : Time) (m : Manager) (l : List (String × CameraStats))
    (hnd : (l.map Prod.fst).Nodup) :
    (rangeCameras now m [] l).2 = l.flatMap (fun p => (evalCamera now m p.1 p.2).2) :=
  rangeCameras_flatMap_aux now m l m rfl (fun _ _ => rfl) hnd

theorem Manager.eq_of (a b : Manager) (h1 : a.mapping = b.mapping)
    (h2 : ∀ k, a.cooldowns k = b.cooldowns k) : a = b := by
  cases a; cases b
  simp only at h1 h2
  have h3 := funext h2
  subst h1; subst h3
  rfl

/-- With each key held once, the visiting order does not matter. -/
theorem rangeCameras_perm (now : Time) (m : Manager) (l l' : List (String × CameraStats))
    (hperm : l'.Perm l) (hnd : (l.map Prod.fst).Nodup) :
    (rangeCameras now m [] l').1 = (rangeCameras now m [] l).1 ∧
      (rangeCameras now m [] l').2.Perm (rangeCameras now m [] l).2 := by
  have hnd' : (l'.map Prod.fst).Nodup :=
    ((hperm.map Prod.fst).nodup_iff).mpr hnd
  refine ⟨?_, ?_⟩
  · apply Manager.eq_of
    · rw [rangeCameras_mapping, rangeCameras_mapping]
    · intro k
      by_cases hk : k ∈ l.map Prod.fst
      · obtain ⟨p, hp, hpk⟩ := List.mem_map.mp hk
        obtain ⟨c, s⟩ := p
        simp only at hpk
        subst hpk
        rw [(rangeCameras_entry now c s l m hnd hp).1,
          (rangeCameras_entry now c s l' m hnd' (hperm.mem_iff.mpr hp)).1]
      · have hk' : k ∉ l'.map Prod.fst := fun h => hk (((hperm.map Prod.fst).mem_iff).mp h)
        rw [(rangeCameras_absent now k l m hk).1, (rangeCameras_absent now k l' m hk').1]
  · rw [rangeCameras_flatMap now m l hnd, rangeCameras_flatMap now m l' hnd']
    exact hperm.flatMap_right _

/-! ## The handler -/

theorem HandleMessage_ok (unmarshal : List UInt8 → Except Error StatsPayload) (now : Time)
    (m : Manager) (topic : String) (payload : List UInt8) (data : StatsPayload)
    (h : unmarshal payload = .ok data) :
    HandleMessage unmarshal now m topic payload = rangeCameras now m [] data.Cameras := by
  unfold HandleMessage
  rw [h]

theorem HandleMessage_error (unmarshal : List UInt8 → Except Error StatsPayload) (now : Time)
    (m : Manager) (topic : String) (payload : List UInt8) (err : Error)
    (h : unmarshal payload = .error err) :
    HandleMessage unmarshal now m topic payload = (m, []) := by
  unfold HandleMessage
  rw [h]

theorem HandleMessage_mapping (unmarshal : List UInt8 → Except Error StatsPayload)
    (now : Time) (m : Manager) (topic : String) (payload : List UInt8) :
    (HandleMessage unmarshal now m topic payload).1.mapping = m.mapping := by
  unfold HandleMessage
  split
  · rfl
  · exact rangeCameras_mapping now _ m

/-- The handler on a decoded snapshot, seen from one of its entities. -/
theorem HandleMessage_entry (unmarshal : List UInt8 → Except Error StatsPayload)
    (now : Time) (m : Manager) (topic : String) (payload : List UInt8)
    (data : StatsPayload) (cam : String) (stats : CameraStats)
    (hdec : unmarshal payload = .ok data)
    (hnd : (data.Cameras.map Prod.fst).Nodup)
    (hmem : (cam, stats) ∈ data.Cameras) :
    dispatchesFor cam (HandleMessage unmarshal now m topic payload).2 =
        (evalCamera now m cam stats).2 ∧
      (HandleMessage unmarshal now m topic payload).1.cooldowns cam =
        (evalCamera now m cam stats).1.cooldowns cam := by
  rw [HandleMessage_ok unmarshal now m topic payload data hdec]
  obtain ⟨h1, h2⟩ := rangeCameras_entry now cam stats data.Cameras m hnd hmem
  exact ⟨h2, h1⟩

theorem HandleMessage_fires (unmarshal : List UInt8 → Except Error StatsPayload)
    (now : Time) (m : Manager) (topic : String) (payload : List UInt8)
    (data : StatsPayload) (cam dev : String) (stats : CameraStats)
    (hdec : unmarshal payload = .ok data)
    (hnd : (data.Cameras.map Prod.fst).Nodup)
    (hmem : (cam, stats) ∈ data.Cameras)
    (hfps : stats.CameraFPS ≤ 0)
    (hmap : m.mapping cam = some dev)
    (hcd : onCooldown now (m.cooldowns cam) = false) :
    dispatchesFor cam (HandleMessage unmarshal now m topic payload).2 = [⟨cam, dev⟩] ∧
      (HandleMessage unmarshal now m topic payload).1.cooldowns cam = some now := by
  obtain ⟨h1, h2⟩ := HandleMessage_entry unmarshal now m topic payload data cam stats
    hdec hnd hmem
  rw [h1, h2, evalCamera_fires now m cam dev stats hfps hmap hcd]
  exact ⟨rfl, by simp [setKey]⟩

theorem HandleMessage_suppressed (unmarshal : List UInt8 → Except Error StatsPayload)
    (now : Time) (m : Manager) (topic : String) (payload : List UInt8)
    (data : StatsPayload) (cam : String) (stats : CameraStats)
    (hdec : unmarshal payload = .ok data)
    (hnd : (data.Cameras.map Prod.fst).Nodup)
    (hmem : (cam, stats) ∈ data.Cameras)
    (hcd : onCooldown now (m.cooldowns cam) = true) :
    dispatchesFor cam (HandleMessage unmarshal now m topic payload).2 = [] ∧
      (HandleMessage unmarshal now m topic payload).1.cooldowns cam = m.cooldowns cam := by
  obtain ⟨h1, h2⟩ := HandleMessage_entry unmarshal now m topic payload data cam stats
    hdec hnd hmem
  rw [h1, h2, evalCamera_suppressed now m cam stats hcd]
  exact ⟨rfl, rfl⟩

/-! ## Sequences of messages -/

theorem handleAll_cons (unmarshal : List UInt8 → Except Error StatsPayload) (m : Manager)
    (d : Delivery) (rest : List Delivery) :
    handleAll unmarshal m (d :: rest) =
      ((handleAll unmarshal (HandleMessage unmarshal d.time m d.topic d.payload).1 rest).1,
        (HandleMessage unmarshal d.time m d.topic d.payload).2.map (fun x => (d.time, x)) ++
          (handleAll unmarshal (HandleMessage unmarshal d.time m d.topic d.payload).1 rest).2) :=
  rfl

theorem timedDispatchesFor_append (cam : String) (a b : List (Time × Dispatch)) :
    timedDispatchesFor cam (a ++ b) = timedDispatchesFor cam a ++ timedDispatchesFor cam b := by
  simp [timedDispatchesFor]

theorem timedDispatchesFor_map (cam : String) (t : Time) (l : List Dispatch) :
    timedDispatchesFor cam (l.map (fun x => (t, x))) =
      (dispatchesFor cam l).map (fun x => (t, x)) := by
  induction l with
  | nil => rfl
  | cons d rest ih =>
    simp only [timedDispatchesFor, dispatchesFor, List.map_cons, List.filter_cons] at ih ⊢
    by_cases h : d.cam = cam
    · simp [h, ih]
    · simp [h, ih]

theorem evalCamera_cases (now : Time) (m : Manager) (c : String) (s : CameraStats) :
    evalCamera now m c s = (m, []) ∨
      ∃ sw, m.mapping c = some sw ∧ onCooldown now (m.cooldowns c) = false ∧
        evalCamera now m c s =
          ({ m with cooldowns := setKey m.cooldowns c now }, [⟨c, sw⟩]) := by
  unfold evalCamera
  split
  · exact Or.inl rfl
  · split
    · exact Or.inl rfl
    · rename_i sw hsw
      split
      · exact Or.inl rfl
      · rename_i hcd
        right
        exact ⟨sw, hsw, by simpa using hcd, rfl⟩

theorem evalCamera_inv (now : Time) (m : Manager) (c : String) (s : CameraStats)
    (T : List (Time × Dispatch)) (h : TraceInv m T) :
    TraceInv (evalCamera now m c s).1
      (T ++ (evalCamera now m c s).2.map (fun x => (now, x))) := by
  have hW : (0 : Int) < cooldownWindow := by decide
  rcases evalCamera_cases now m c s with h0 | ⟨sw, _, hcd, h0⟩
  · rw [h0]; simpa using h
  · rw [h0]
    obtain ⟨hp, hreg⟩ := h
    have hold : ∀ td ∈ T, td.2.cam = c → cooldownWindow ≤ now - td.1 := by
      intro td htd hc
      obtain ⟨last, hl, hle⟩ := hreg td htd
      rw [hc] at hl
      rw [hl] at hcd
      simp only [onCooldown, decide_eq_false_iff_not, not_lt] at hcd
      linarith
    refine ⟨?_, ?_⟩
    · unfold entityThrottled at hp ⊢
      simp only [List.map_cons, List.map_nil]
      rw [List.pairwise_append]
      refine ⟨hp, List.pairwise_singleton _ _, ?_⟩
      intro a ha b hb hab
      simp only [List.mem_singleton] at hb
      subst hb
      exact hold a ha hab
    · intro td htd
      simp only [List.map_cons, List.map_nil, List.mem_append, List.mem_singleton] at htd
      rcases htd with htd | htd
      · by_cases hc : td.2.cam = c
        · refine ⟨now, by simp [setKey, hc], ?_⟩
          have := hold td htd hc
          linarith
        · obtain ⟨last, hl, hle⟩ := hreg td htd
          exact ⟨last, by simp [setKey, hc, hl], hle⟩
      · subst htd
        exact ⟨now, by simp [setKey], le_refl _⟩

theorem rangeCameras_inv (now : Time) (l : List (String × CameraStats)) :
    ∀ (m : Manager) (T : List (Time × Dispatch)), TraceInv m T →
      TraceInv (rangeCameras now m [] l).1
        (T ++ (rangeCameras now m [] l).2.map (fun x => (now, x))) := by
  induction l with
  | nil => intro m T h; simpa [rangeCameras] using h
  | cons p rest ih =>
    intro m T h
    obtain ⟨c, s⟩ := p
    rw [rangeCameras_cons]
    simp only [List.map_append]
    rw [← List.append_assoc]
    exact ih _ _ (evalCamera_inv now m c s T h)

theorem HandleMessage_inv (unmarshal : List UInt8 → Except Error StatsPayload) (now : Time)
    (m : Manager) (topic : String) (payload : List UInt8) (T : List (Time × Dispatch))
    (h : TraceInv m T) :
    TraceInv (HandleMessage unmarshal now m topic payload).1
      (T ++ (HandleMessage unmarshal now m topic payload).2.map (fun x => (now, x))) := by
  unfold HandleMessage
  split
  · simpa using h
  · exact rangeCameras_inv now _ m T h

theorem handleAll_inv (unmarshal : List UInt8 → Except Error StatsPayload)
    (msgs : List Delivery) :
    ∀ (m : Manager) (T : List (Time × Dispatch)), TraceInv m T →
      TraceInv (handleAll unmarshal m msgs).1 (T ++ (handleAll unmarshal m msgs).2) := by
  induction msgs with
  | nil => intro m T h; simpa [handleAll] using h
  | cons d rest ih =>
    intro m T h
    rw [handleAll_cons]
    simp only
    rw [← List.append_assoc]
    exact ih _ _ (HandleMessage_inv unmarshal d.time m d.topic d.payload T h)

theorem rangeCameras_dev (now : Time) (l : List (String × CameraStats)) :
    ∀ m : Manager, ∀ d ∈ (rangeCameras now m [] l).2, m.mapping d.cam = some d.dev := by
  induction l with
  | nil => intro m d hd; simp [rangeCameras] at hd
  | cons p rest ih =>
    intro m d hd
    obtain ⟨c, s⟩ := p
    rw [rangeCameras_cons] at hd
    simp only [List.mem_append] at hd
    rcases hd with hd | hd
    · exact evalCamera_dev now m c s d hd
    · have := ih _ d hd
      rwa [evalCamera_mapping] at this

theorem HandleMessage_dev (unmarshal : List UInt8 → Except Error StatsPayload) (now : Time)
    (m : Manager) (topic : String) (payload : List UInt8) :
    ∀ d ∈ (HandleMessage unmarshal now m topic payload).2, m.mapping d.cam = some d.dev := by
  unfold HandleMessage
  split
  · intro d hd; simp at hd
  · exact rangeCameras_dev now _ m

theorem handleAll_dev (unmarshal : List UInt8 → Except Error StatsPayload)
    (msgs : List Delivery) :
    ∀ m : Manager, ∀ td ∈ (handleAll unmarshal m msgs).2,
      m.mapping td.2.cam = some td.2.dev := by
  induction msgs with
  | nil => intro m td htd; simp [handleAll] at htd
  | cons d rest ih =>
    intro m td htd
    rw [handleAll_cons] at htd
    simp only [List.mem_append, List.mem_map] at htd
    rcases htd with ⟨x, hx, rfl⟩ | htd
    · exact HandleMessage_dev unmarshal d.time m d.topic d.payload x hx
    · have := ih _ td htd
      rwa [HandleMessage_mapping] at this

/-! ## Properties of `HandleMessage` -/

/-- C5: an entity of a decoded snapshot whose `camera_fps` is strictly positive
gets no remediation dispatch and keeps its registry entry, present or absent,
whatever the mapping and the registry are. -/
theorem healthy_entity_untouched (unmarshal : List UInt8 → Except Error StatsPayload)
    (now : Time) (m : Manager) (topic : String) (payload : List UInt8)
    (data : StatsPayload) (cam : String) (stats : CameraStats)
    (hdec : unmarshal payload = .ok data)
    (hnd : (data.Cameras.map Prod.fst).Nodup)
    (hmem : (cam, stats) ∈ data.Cameras)
    (hfps : stats.CameraFPS > 0) :
    dispatchesFor cam (HandleMessage unmarshal now m topic payload).2 = [] ∧
      (HandleMessage unmarshal now m topic payload).1.cooldowns cam = m.cooldowns cam := by
  rw [HandleMessage_ok unmarshal now m topic payload data hdec]
  obtain ⟨h1, h2⟩ := rangeCameras_entry now cam stats data.Cameras m hnd hmem
  rw [h1, h2, evalCamera_healthy now m cam stats hfps]
  exact ⟨rfl, rfl⟩

theorem healthy_entity_untouched_witness :
    dispatchesFor "front"
        (HandleMessage sampleUnmarshal 7 (NewManager sampleMapping) "frigate/stats" [2]).2 = [] ∧
      (HandleMessage sampleUnmarshal 7 (NewManager sampleMapping) "frigate/stats"
        [2]).1.cooldowns "front" = (NewManager sampleMapping).cooldowns "front" :=
  healthy_entity_untouched sampleUnmarshal 7 (NewManager sampleMapping) "frigate/stats" [2]
    ⟨[("front", ⟨25 / 2, 42⟩)]⟩ "front" ⟨25 / 2, 42⟩ rfl (by simp) (by simp) (by norm_num)

/-- C6: a failing entity of a decoded snapshot that is not a key of the mapping
gets no remediation dispatch, and its registry entry is neither created nor
changed.  The handler has no error result, and the model of it is a total
function: there is nothing for the call to raise. -/
theorem unmapped_entity_noop (unmarshal : List UInt8 → Except Error StatsPayload)
    (now : Time) (m : Manager) (topic : String) (payload : List UInt8)
    (data : StatsPayload) (cam : String) (stats : CameraStats)
    (hdec : unmarshal payload = .ok data)
    (hnd : (data.Cameras.map Prod.fst).Nodup)
    (hmem : (cam, stats) ∈ data.Cameras)
    (hfps : stats.CameraFPS ≤ 0)
    (hmap : m.mapping cam = none) :
    dispatchesFor cam (HandleMessage unmarshal now m topic payload).2 = [] ∧
      (HandleMessage unmarshal now m topic payload).1.cooldowns cam = m.cooldowns cam := by
  have _ := hfps
  obtain ⟨h1, h2⟩ := HandleMessage_entry unmarshal now m topic payload data cam stats
    hdec hnd hmem
  rw [h1, h2, evalCamera_unmapped now m cam stats hmap]
  exact ⟨rfl, rfl⟩

theorem unmapped_entity_noop_witness :
    dispatchesFor "back"
        (HandleMessage sampleUnmarshal 7 (NewManager sampleMapping) "frigate/stats" [3]).2 = [] ∧
      (HandleMessage sampleUnmarshal 7 (NewManager sampleMapping) "frigate/stats"
        [3]).1.cooldowns "back" = (NewManager sampleMapping).cooldowns "back" :=
  unmapped_entity_noop sampleUnmarshal 7 (NewManager sampleMapping) "frigate/stats" [3]
    ⟨[("front", ⟨0, 42⟩), ("back", ⟨0, 43⟩)]⟩ "back" ⟨0, 43⟩ rfl (by decide) (by simp)
    (by decide) (by decide)

/-- C7: when decoding the payload fails, the call evaluates nothing: it starts
no goroutine and returns the manager it was given, registry included. -/
theorem malformed_payload_dropped (unmarshal : List UInt8 → Except Error StatsPayload)
    (now : Time) (m : Manager) (topic : String) (payload : List UInt8) (err : Error)
    (hdec : unmarshal payload = .error err) :
    (HandleMessage unmarshal now m topic payload).2 = [] ∧
      (HandleMessage unmarshal now m topic payload).1 = m := by
  rw [HandleMessage_error unmarshal now m topic payload err hdec]
  exact ⟨rfl, rfl⟩

theorem malformed_payload_dropped_witness :
    (HandleMessage sampleUnmarshal 7 (NewManager sampleMapping) "frigate/stats"
        [123, 34]).2 = [] ∧
      (HandleMessage sampleUnmarshal 7 (NewManager sampleMapping) "frigate/stats"
        [123, 34]).1 = NewManager sampleMapping :=
  malformed_payload_dropped sampleUnmarshal 7 (NewManager sampleMapping) "frigate/stats"
    [123, 34] "invalid character looking for beginning of value" rfl

/-- C2: a failing, mapped entity of a decoded snapshot whose registry entry is
absent, or at least five minutes old (exactly five minutes included), gets
exactly one dispatch, for the device the mapping gives, and its registry entry
becomes the current time. -/
theorem failing_mapped_entity_dispatched (unmarshal : List UInt8 → Except Error StatsPayload)
    (now : Time) (m : Manager) (topic : String) (payload : List UInt8)
    (data : StatsPayload) (cam dev : String) (stats : CameraStats)
    (hdec : unmarshal payload = .ok data)
    (hnd : (data.Cameras.map Prod.fst).Nodup)
    (hmem : (cam, stats) ∈ data.Cameras)
    (hfps : stats.CameraFPS ≤ 0)
    (hmap : m.mapping cam = some dev)
    (hcd : m.cooldowns cam = none ∨
      ∃ last, m.cooldowns cam = some last ∧ cooldownWindow ≤ now - last) :
    dispatchesFor cam (HandleMessage unmarshal now m topic payload).2 = [⟨cam, dev⟩] ∧
      (HandleMessage unmarshal now m topic payload).1.cooldowns cam = some now := by
  rw [HandleMessage_ok unmarshal now m topic payload data hdec]
  obtain ⟨h1, h2⟩ := rangeCameras_entry now cam stats data.Cameras m hnd hmem
  have hoff : onCooldown now (m.cooldowns cam) = false := by
    rcases hcd with h | ⟨last, h, hle⟩
    · rw [h]; rfl
    · rw [h]; simp only [onCooldown, decide_eq_false_iff_not, not_lt]; exact hle
  rw [h1, h2, evalCamera_fires now m cam dev stats hfps hmap hoff]
  exact ⟨rfl, by simp [setKey]⟩

theorem failing_mapped_entity_dispatched_witness :
    dispatchesFor "front"
        (HandleMessage sampleUnmarshal 7 (NewManager sampleMapping) "frigate/stats" [1]).2 =
        [⟨"front", "switch-1"⟩] ∧
      (HandleMessage sampleUnmarshal 7 (NewManager sampleMapping) "frigate/stats"
        [1]).1.cooldowns "front" = some 7 :=
  failing_mapped_entity_dispatched sampleUnmarshal 7 (NewManager sampleMapping)
    "frigate/stats" [1] ⟨[("front", ⟨0, 42⟩)]⟩ "front" "switch-1" ⟨0, 42⟩ rfl (by decide)
    (by simp) (by decide) (by decide) (Or.inl rfl)

/-- C9: an entity that has a registry entry still has one after the call; the
entry is the old timestamp, or the current time, and then the current time is
strictly newer than the old timestamp; a current time earlier than the stored
timestamp leaves the entry as it was. -/
theorem registry_monotone (unmarshal : List UInt8 → Except Error StatsPayload)
    (now : Time) (m : Manager) (topic : String) (payload : List UInt8)
    (cam : String) (old : Time)
    (hold : m.cooldowns cam = some old) :
    ((HandleMessage unmarshal now m topic payload).1.cooldowns cam = some old ∨
        ((HandleMessage unmarshal now m topic payload).1.cooldowns cam = some now ∧
          old < now)) ∧
      (now < old →
        (HandleMessage unmarshal now m topic payload).1.cooldowns cam = some old) := by
  have hW : (0 : Int) < cooldownWindow := by decide
  have key : (HandleMessage unmarshal now m topic payload).1.cooldowns cam = some old ∨
      ((HandleMessage unmarshal now m topic payload).1.cooldowns cam = some now ∧
        cooldownWindow ≤ now - old) := by
    unfold HandleMessage
    split
    · exact Or.inl hold
    · rename_i data _
      rcases rangeCameras_cooldowns_cases now cam data.Cameras m with h | ⟨h, hc⟩
      · left; rw [h, hold]
      · right
        refine ⟨h, ?_⟩
        rw [hold] at hc
        simpa [onCooldown] using hc
  refine ⟨?_, ?_⟩
  · rcases key with h | ⟨h, hle⟩
    · exact Or.inl h
    · exact Or.inr ⟨h, by linarith⟩
  · intro hlt
    rcases key with h | ⟨_, hle⟩
    · exact h
    · exfalso; linarith

theorem registry_monotone_witness :
    ((HandleMessage sampleUnmarshal 9
          { mapping := sampleMapping, cooldowns := setKey (fun _ => none) "front" 4 }
          "frigate/stats" [1]).1.cooldowns "front" = some 4 ∨
        ((HandleMessage sampleUnmarshal 9
            { mapping := sampleMapping, cooldowns := setKey (fun _ => none) "front" 4 }
            "frigate/stats" [1]).1.cooldowns "front" = some 9 ∧ (4 : Time) < 9)) ∧
      ((9 : Time) < 4 →
        (HandleMessage sampleUnmarshal 9
          { mapping := sampleMapping, cooldowns := setKey (fun _ => none) "front" 4 }
          "frigate/stats" [1]).1.cooldowns "front" = some 4) :=
  registry_monotone sampleUnmarshal 9
    { mapping := sampleMapping, cooldowns := setKey (fun _ => none) "front" 4 }
    "frigate/stats" [1] "front" 4 (by decide)

/-- C1: for a failing, mapped entity with no registry entry, three messages
handled in chronological order, the second less than five minutes after the
first and the third more than five minutes after the second: the first two
evaluations produce exactly one dispatch, at the first; the third dispatches
again. -/
theorem cooldown_invariant (unmarshal : List UInt8 → Except Error StatsPayload)
    (m : Manager) (cam dev : String) (x1 x2 x3 : Delivery) (d1 d2 d3 : StatsPayload)
    (s1 s2 s3 : CameraStats)
    (hdec1 : unmarshal x1.payload = .ok d1) (hdec2 : unmarshal x2.payload = .ok d2)
    (hdec3 : unmarshal x3.payload = .ok d3)
    (hnd1 : (d1.Cameras.map Prod.fst).Nodup) (hnd2 : (d2.Cameras.map Prod.fst).Nodup)
    (hnd3 : (d3.Cameras.map Prod.fst).Nodup)
    (hmem1 : (cam, s1) ∈ d1.Cameras) (hmem2 : (cam, s2) ∈ d2.Cameras)
    (hmem3 : (cam, s3) ∈ d3.Cameras)
    (hfps1 : s1.CameraFPS ≤ 0) (hfps2 : s2.CameraFPS ≤ 0) (hfps3 : s3.CameraFPS ≤ 0)
    (hmap : m.mapping cam = some dev) (hnone : m.cooldowns cam = none)
    (hord : x1.time ≤ x2.time)
    (hclose : x2.time - x1.time < cooldownWindow)
    (hfar : cooldownWindow < x3.time - x2.time) :
    timedDispatchesFor cam (handleAll unmarshal m [x1, x2]).2 = [(x1.time, ⟨cam, dev⟩)] ∧
      timedDispatchesFor cam (handleAll unmarshal m [x1, x2, x3]).2 =
        [(x1.time, ⟨cam, dev⟩), (x3.time, ⟨cam, dev⟩)] := by
  have _ := hfps2
  have e1 := HandleMessage_fires unmarshal x1.time m x1.topic x1.payload d1 cam dev s1
    hdec1 hnd1 hmem1 hfps1 hmap (by rw [hnone]; rfl)
  have hmap1 : (HandleMessage unmarshal x1.time m x1.topic x1.payload).1.mapping cam =
      some dev := by rw [HandleMessage_mapping]; exact hmap
  have hcd2 : onCooldown x2.time
      ((HandleMessage unmarshal x1.time m x1.topic x1.payload).1.cooldowns cam) = true := by
    rw [e1.2]; simp only [onCooldown, decide_eq_true_eq]; exact hclose
  have e2 := HandleMessage_suppressed unmarshal x2.time
    (HandleMessage unmarshal x1.time m x1.topic x1.payload).1 x2.topic x2.payload d2 cam s2
    hdec2 hnd2 hmem2 hcd2
  have hmap2 : (HandleMessage unmarshal x2.time
      (HandleMessage unmarshal x1.time m x1.topic x1.payload).1 x2.topic
      x2.payload).1.mapping cam = some dev := by rw [HandleMessage_mapping]; exact hmap1
  have hcd3 : onCooldown x3.time
      ((HandleMessage unmarshal x2.time
        (HandleMessage unmarshal x1.time m x1.topic x1.payload).1 x2.topic
        x2.payload).1.cooldowns cam) = false := by
    rw [e2.2, e1.2]
    simp only [onCooldown, decide_eq_false_iff_not, not_lt]
    linarith
  have e3 := HandleMessage_fires unmarshal x3.time _ x3.topic x3.payload d3 cam dev s3
    hdec3 hnd3 hmem3 hfps3 hmap2 hcd3
  refine ⟨?_, ?_⟩
  · simp only [handleAll_cons, handleAll, timedDispatchesFor_append, timedDispatchesFor_map,
      e1.1, e2.1]
    rfl
  · simp only [handleAll_cons, handleAll, timedDispatchesFor_append, timedDispatchesFor_map,
      e1.1, e2.1, e3.1]
    rfl

theorem cooldown_invariant_witness :
    timedDispatchesFor "front"
        (handleAll sampleUnmarshal (NewManager sampleMapping)
          [⟨0, "frigate/stats", [1]⟩, ⟨1000000000, "frigate/stats", [3]⟩]).2 =
        [(0, ⟨"front", "switch-1"⟩)] ∧
      timedDispatchesFor "front"
        (handleAll sampleUnmarshal (NewManager sampleMapping)
          [⟨0, "frigate/stats", [1]⟩, ⟨1000000000, "frigate/stats", [3]⟩,
            ⟨302000000000, "frigate/stats", [4]⟩]).2 =
        [(0, ⟨"front", "switch-1"⟩), (302000000000, ⟨"front", "switch-1"⟩)] :=
  cooldown_invariant sampleUnmarshal (NewManager sampleMapping) "front" "switch-1"
    ⟨0, "frigate/stats", [1]⟩ ⟨1000000000, "frigate/stats", [3]⟩
    ⟨302000000000, "frigate/stats", [4]⟩
    ⟨[("front", ⟨0, 42⟩)]⟩ ⟨[("front", ⟨0, 42⟩), ("back", ⟨0, 43⟩)]⟩
    ⟨[("back", ⟨0, 43⟩), ("front", ⟨0, 42⟩)]⟩ ⟨0, 42⟩ ⟨0, 42⟩ ⟨0, 42⟩
    rfl rfl rfl (by decide) (by decide) (by decide) (by simp) (by simp) (by simp)
    (by decide) (by decide) (by decide) (by decide) rfl (by decide) (by decide) (by decide)

/-- C4, as the claim states it, fails: with two cameras plugged into one
switch, one message reporting both at 0 fps starts two restarts of that switch
at the same instant. -/
theorem device_throttle_counterexample :
    ¬ deviceThrottled
      (handleAll sampleUnmarshal (NewManager sharedMapping) [⟨0, "frigate/stats", [3]⟩]).2 := by
  have h : (handleAll sampleUnmarshal (NewManager sharedMapping)
      [⟨0, "frigate/stats", [3]⟩]).2 =
      [(0, ⟨"front", "switch-1"⟩), (0, ⟨"back", "switch-1"⟩)] := by decide
  rw [h]
  unfold deviceThrottled
  simp [cooldownWindow]

/-- C4, amended: throttling is per entity.  For every mapping, every registry
and every sequence of messages, no entity is the subject of two dispatches
less than five minutes apart; when no two entities share a device, no device is
the target of two dispatches less than five minutes apart. -/
theorem entity_throttle (unmarshal : List UInt8 → Except Error StatsPayload) (m : Manager)
    (msgs : List Delivery) :
    entityThrottled (handleAll unmarshal m msgs).2 ∧
      (injectiveMapping m.mapping → deviceThrottled (handleAll unmarshal m msgs).2) := by
  have hinv := handleAll_inv unmarshal msgs m [] ⟨List.Pairwise.nil, by simp⟩
  simp only [List.nil_append] at hinv
  refine ⟨hinv.1, ?_⟩
  intro hinj
  have hp := hinv.1
  unfold entityThrottled at hp
  unfold deviceThrottled
  have hdev := handleAll_dev unmarshal msgs m
  have hp2 : List.Pairwise (fun a b : Time × Dispatch =>
      (m.mapping a.2.cam = some a.2.dev ∧ m.mapping b.2.cam = some b.2.dev) ∧
        (a.2.cam = b.2.cam → cooldownWindow ≤ b.1 - a.1))
      (handleAll unmarshal m msgs).2 :=
    List.Pairwise.and (List.pairwise_of_forall_mem_list
      (fun a ha b hb => ⟨hdev a ha, hdev b hb⟩)) hp
  refine hp2.imp ?_
  intro a b hab hd
  obtain ⟨⟨ha, hb⟩, himp⟩ := hab
  rw [← hd] at hb
  have := himp (hinj _ _ _ ha hb)
  exact le_trans this (le_abs_self _)

theorem entity_throttle_witness :
    entityThrottled (handleAll sampleUnmarshal (NewManager sampleMapping)
        [⟨0, "frigate/stats", [1]⟩, ⟨1000000000, "frigate/stats", [3]⟩]).2 ∧
      deviceThrottled (handleAll sampleUnmarshal (NewManager sampleMapping)
        [⟨0, "frigate/stats", [1]⟩, ⟨1000000000, "frigate/stats", [3]⟩]).2 :=
  ⟨(entity_throttle sampleUnmarshal (NewManager sampleMapping)
      [⟨0, "frigate/stats", [1]⟩, ⟨1000000000, "frigate/stats", [3]⟩]).1,
    (entity_throttle sampleUnmarshal (NewManager sampleMapping)
      [⟨0, "frigate/stats", [1]⟩, ⟨1000000000, "frigate/stats", [3]⟩]).2
      (by
        intro a b dev ha hb
        simp only [NewManager, sampleMapping] at ha hb
        split at ha
        · split at hb
          · simp_all
          · simp at hb
        · simp at ha)⟩

/-- C8: the entities of one snapshot are evaluated independently.  For a decoded
snapshot in which each key occurs once: (order) another visiting order of the
same entries gives the same manager and the same dispatches up to order;
(own snapshot) the dispatches are those of handling each entity in a snapshot of
its own, the registry entry of each entity of the snapshot is the one that
handling it alone gives, and every other registry entry is untouched;
(locality) what is done for one entity is the same in any other call at the same
instant in which that entity has the same frame rate, mapping entry and
registry entry. -/
theorem entities_independent (unmarshal : List UInt8 → Except Error StatsPayload)
    (now : Time) (m : Manager) (topic : String) (payload : List UInt8) (data : StatsPayload)
    (hdec : unmarshal payload = .ok data)
    (hnd : (data.Cameras.map Prod.fst).Nodup)
    (payload' : List UInt8) (data' : StatsPayload)
    (hdec' : unmarshal payload' = .ok data')
    (hperm : data'.Cameras.Perm data.Cameras)
    (single : String × CameraStats → List UInt8)
    (hsingle : ∀ p ∈ data.Cameras, unmarshal (single p) = .ok ⟨[p]⟩)
    (cam : String) (st : CameraStats) (hmem : (cam, st) ∈ data.Cameras)
    (m2 : Manager) (payload2 : List UInt8) (data2 : StatsPayload) (st2 : CameraStats)
    (hdec2 : unmarshal payload2 = .ok data2)
    (hnd2 : (data2.Cameras.map Prod.fst).Nodup)
    (hmem2 : (cam, st2) ∈ data2.Cameras)
    (hfps2 : st2.CameraFPS = st.CameraFPS)
    (hmap2 : m2.mapping cam = m.mapping cam)
    (hcd2 : m2.cooldowns cam = m.cooldowns cam) :
    ((HandleMessage unmarshal now m topic payload').1 =
          (HandleMessage unmarshal now m topic payload).1 ∧
        (HandleMessage unmarshal now m topic payload').2.Perm
          (HandleMessage unmarshal now m topic payload).2) ∧
      ((HandleMessage unmarshal now m topic payload).2 =
          data.Cameras.flatMap (fun p => (HandleMessage unmarshal now m topic (single p)).2) ∧
        (∀ p ∈ data.Cameras,
          (HandleMessage unmarshal now m topic payload).1.cooldowns p.1 =
            (HandleMessage unmarshal now m topic (single p)).1.cooldowns p.1) ∧
        (∀ k, k ∉ data.Cameras.map Prod.fst →
          (HandleMessage unmarshal now m topic payload).1.cooldowns k = m.cooldowns k)) ∧
      (dispatchesFor cam (HandleMessage unmarshal now m2 topic payload2).2 =
          dispatchesFor cam (HandleMessage unmarshal now m topic payload).2 ∧
        (HandleMessage unmarshal now m2 topic payload2).1.cooldowns cam =
          (HandleMessage unmarshal now m topic payload).1.cooldowns cam) := by
  have hsingle_eval : ∀ p ∈ data.Cameras,
      HandleMessage unmarshal now m topic (single p) = evalCamera now m p.1 p.2 := by
    intro p hp
    rw [HandleMessage_ok unmarshal now m topic (single p) ⟨[p]⟩ (hsingle p hp)]
    obtain ⟨c, s⟩ := p
    rw [rangeCameras_cons]
    simp [rangeCameras]
  refine ⟨?_, ⟨?_, ?_, ?_⟩, ?_⟩
  · rw [HandleMessage_ok unmarshal now m topic payload data hdec,
      HandleMessage_ok unmarshal now m topic payload' data' hdec']
    exact rangeCameras_perm now m data.Cameras data'.Cameras hperm hnd
  · rw [HandleMessage_ok unmarshal now m topic payload data hdec,
      rangeCameras_flatMap now m data.Cameras hnd]
    apply List.flatMap_congr
    intro p hp
    rw [hsingle_eval p hp]
  · intro p hp
    rw [hsingle_eval p hp]
    exact (HandleMessage_entry unmarshal now m topic payload data p.1 p.2 hdec hnd hp).2
  · intro k hk
    rw [HandleMessage_ok unmarshal now m topic payload data hdec]
    exact (rangeCameras_absent now k data.Cameras m hk).1
  · obtain ⟨a1, a2⟩ := HandleMessage_entry unmarshal now m topic payload data cam st
      hdec hnd hmem
    obtain ⟨b1, b2⟩ := HandleMessage_entry unmarshal now m2 topic payload2 data2 cam st2
      hdec2 hnd2 hmem2
    obtain ⟨c1, c2⟩ := evalCamera_local now m2 m cam st2 st hfps2 hmap2 hcd2
    rw [a1, a2, b1, b2]
    exact ⟨c1, c2⟩

theorem entities_independent_witness :
    (HandleMessage sampleUnmarshal 7 (NewManager sharedMapping) "frigate/stats" [4]).2.Perm
        (HandleMessage sampleUnmarshal 7 (NewManager sharedMapping) "frigate/stats" [3]).2 ∧
      (HandleMessage sampleUnmarshal 7 (NewManager sharedMapping) "frigate/stats" [3]).2 =
        List.flatMap [("front", (⟨0, 42⟩ : CameraStats)), ("back", ⟨0, 43⟩)]
          (fun p => (HandleMessage sampleUnmarshal 7 (NewManager sharedMapping)
            "frigate/stats" (sampleSingle p)).2) ∧
      dispatchesFor "front"
          (HandleMessage sampleUnmarshal 7 (NewManager sampleMapping) "frigate/stats" [1]).2 =
        dispatchesFor "front"
          (HandleMessage sampleUnmarshal 7 (NewManager sharedMapping) "frigate/stats" [3]).2 :=
  have h := entities_independent sampleUnmarshal 7 (NewManager sharedMapping) "frigate/stats"
    [3] ⟨[("front", ⟨0, 42⟩), ("back", ⟨0, 43⟩)]⟩ rfl (by decide)
    [4] ⟨[("back", ⟨0, 43⟩), ("front", ⟨0, 42⟩)]⟩ rfl
    (List.Perm.swap _ _ _)
    sampleSingle
    (by
      intro p hp
      simp only [List.mem_cons, List.mem_singleton, List.not_mem_nil, or_false] at hp
      rcases hp with rfl | rfl <;> rfl)
    "front" ⟨0, 42⟩ (by simp)
    (NewManager sampleMapping) [1] ⟨[("front", ⟨0, 42⟩)]⟩ ⟨0, 42⟩ rfl (by decide) (by simp)
    rfl (by decide) rfl
  ⟨h.1.2, h.2.1.1, h.2.2.1⟩

/-! ## Properties of `RestartDevice` -/

/-- C3: `RestartDevice` calls `sendCommand` with "off" first.  If that fails, it
returns that failure and the commands issued are exactly `[off]`.  If it
succeeds, the commands issued are exactly `[off, on]`, with the settle delay
between them, and the result is the result of "on".  The result is success
exactly when both commands succeeded. -/
theorem restart_sequencing (http : Http) (deviceID : String) (log : List Effect) :
    (∀ err, (sendCommand http deviceID "off" log).1 = some err →
        (RestartDevice http deviceID log).1 = some err ∧
          (RestartDevice http deviceID log).2 = log ++ [Effect.command deviceID "off"] ∧
          commandsIssued (RestartDevice http deviceID log).2 =
            commandsIssued log ++ [(deviceID, "off")]) ∧
      ((sendCommand http deviceID "off" log).1 = none →
        (RestartDevice http deviceID log).1 =
            (sendCommand http deviceID "on"
              (log ++ [Effect.command deviceID "off", Effect.sleep settleDelay])).1 ∧
          (RestartDevice http deviceID log).2 =
            log ++ [Effect.command deviceID "off", Effect.sleep settleDelay,
              Effect.command deviceID "on"] ∧
          commandsIssued (RestartDevice http deviceID log).2 =
            commandsIssued log ++ [(deviceID, "off"), (deviceID, "on")]) ∧
      ((RestartDevice http deviceID log).1 = none ↔
        (sendCommand http deviceID "off" log).1 = none ∧
          (sendCommand http deviceID "on"
            (log ++ [Effect.command deviceID "off", Effect.sleep settleDelay])).1 = none) := by
  unfold RestartDevice sendCommand
  simp only
  cases hoff : commandOutcome http deviceID "off" with
  | some e =>
    simp [commandsIssued]
  | none =>
    cases hon : commandOutcome http deviceID "on" with
    | some e2 => simp [hon, commandsIssued]
    | none => simp [hon, commandsIssued]

theorem restart_sequencing_witness :
    (RestartDevice sampleHttp "switch-1" []).1 = some "api returned non-200 status: 500" ∧
      (RestartDevice sampleHttp "switch-1" []).2 = [] ++ [Effect.command "switch-1" "off"] ∧
      commandsIssued (RestartDevice sampleHttp "switch-1" []).2 =
        commandsIssued [] ++ [("switch-1", "off")] :=
  (restart_sequencing sampleHttp "switch-1" []).1 "api returned non-200 status: 500"
    (by decide)

/-! ## Overlapping invocations -/

theorem onCooldown_later (now : Time) (dt : Nat) (entry : Option Time)
    (h : onCooldown now entry = false) : onCooldown (now + dt) entry = false := by
  cases entry with
  | none => rfl
  | some last =>
    simp only [onCooldown, decide_eq_false_iff_not, not_lt] at h ⊢
    have : (0 : Int) ≤ (dt : Int) := Int.ofNat_nonneg dt
    linarith

theorem Apart.symm {a b : Time × Dispatch} (h : Apart a b) : Apart b a := by
  intro hc
  have := h hc.symm
  rwa [abs_sub_comm] at this

theorem tick_inv (s : System) (dt : Nat) (h : Inv s) : Inv (tick s dt) where
  mutex := h.mutex
  checked := h.checked
  passed := fun i c d hpc => onCooldown_later s.clock dt _ (h.passed i c d hpc)
  startedReg := h.startedReg
  pendingReg := h.pendingReg
  apartStarted := h.apartStarted
  apartMixed := h.apartMixed
  apartPending := h.apartPending

/-- A step that leaves registry, clock and started goroutines alone and decides
no new goroutine keeps the invariant, once the three facts about positions are
re-established. -/
theorem inv_of_quiet (s s' : System) (h : Inv s)
    (hcd : s'.cooldowns = s.cooldowns) (hst : s'.started = s.started)
    (hmutex : ∀ j, inCrit (s'.threads j).pc = true → s'.mu = some j)
    (hchecked : ∀ j c d e, (s'.threads j).pc = Pc.check c d e → e = s.cooldowns c)
    (hpassed : ∀ j c d, (s'.threads j).pc = Pc.store c d →
      onCooldown s'.clock (s.cooldowns c) = false)
    (hsub : ∀ j e, pending (s'.threads j).pc = some e → pending (s.threads j).pc = some e) :
    Inv s' where
  mutex := hmutex
  checked := by rw [hcd]; exact hchecked
  passed := by rw [hcd]; exact hpassed
  startedReg := by rw [hcd, hst]; exact h.startedReg
  pendingReg := by
    rw [hcd]
    exact fun j e hj => h.pendingReg j e (hsub j e hj)
  apartStarted := by rw [hst]; exact h.apartStarted
  apartMixed := by
    rw [hst]
    exact fun e he j e' hj => h.apartMixed e he j e' (hsub j e' hj)
  apartPending := fun j k e e' hjk hj hk =>
    h.apartPending j k e e' hjk (hsub j e hj) (hsub k e' hk)

theorem setThread_threads (s : System) (i j : Nat) (th : Thread) :
    (s.setThread i th).threads j = if j = i then th else s.threads j := rfl

/-- Two threads between `Lock` and `Unlock` are one thread. -/
theorem Inv.crit_unique {s : System} (h : Inv s) (i j : Nat)
    (hi : inCrit (s.threads i).pc = true) (hj : inCrit (s.threads j).pc = true) : j = i := by
  have a := h.mutex i hi
  have b := h.mutex j hj
  rw [a] at b
  exact (Option.some.inj b).symm

/-- Thread `i` moves to a new position and the mutex gets a new holder, the
rest of the state staying as it is. -/
theorem inv_setThread (s : System) (i : Nat) (th : Thread) (mu' : Option Nat) (h : Inv s)
    (hothers : ∀ j, j ≠ i → inCrit (s.threads j).pc = true → mu' = some j)
    (hcrit : inCrit th.pc = true → mu' = some i)
    (hcheck : ∀ c d e, th.pc = Pc.check c d e → e = s.cooldowns c)
    (hpass : ∀ c d, th.pc = Pc.store c d → onCooldown s.clock (s.cooldowns c) = false)
    (hpend : ∀ e, pending th.pc = some e → pending (s.threads i).pc = some e) :
    Inv (({ s with mu := mu' }).setThread i th) := by
  refine inv_of_quiet s (({ s with mu := mu' }).setThread i th) h rfl rfl ?_ ?_ ?_ ?_
  · intro j hj
    rw [setThread_threads] at hj
    by_cases hji : j = i
    · rw [if_pos hji] at hj
      rw [hji]
      exact hcrit hj
    · rw [if_neg hji] at hj
      exact hothers j hji hj
  · intro j c d e hj
    rw [setThread_threads] at hj
    by_cases hji : j = i
    · rw [if_pos hji] at hj
      exact hcheck c d e hj
    · rw [if_neg hji] at hj
      exact h.checked j c d e hj
  · intro j c d hj
    rw [setThread_threads] at hj
    by_cases hji : j = i
    · rw [if_pos hji] at hj
      exact hpass c d hj
    · rw [if_neg hji] at hj
      exact h.passed j c d hj
  · intro j e hj
    rw [setThread_threads] at hj
    by_cases hji : j = i
    · rw [if_pos hji] at hj
      rw [hji]
      exact hpend e hj
    · rw [if_neg hji] at hj
      exact hj

/-- The assignment of `manager.go:76`, executed by the thread that holds the
mutex and has passed the test. -/
theorem inv_store (s : System) (i : Nat) (c d : String) (todo : List (String × CameraStats))
    (h : Inv s) (hpc : (s.threads i).pc = Pc.store c d) :
    Inv (({ s with cooldowns := setKey s.cooldowns c s.clock }).setThread i
      ⟨todo, Pc.unlockGo c d s.clock⟩) := by
  have hW : (0 : Int) < cooldownWindow := by decide
  have hicrit : inCrit (s.threads i).pc = true := by rw [hpc]; rfl
  have hpass := h.passed i c d hpc
  have others : ∀ j, j ≠ i → inCrit (s.threads j).pc = false := by
    intro j hji
    cases hj : inCrit (s.threads j).pc with
    | false => rfl
    | true => exact absurd (h.crit_unique i j hicrit hj) hji
  -- every goroutine decided so far for entity `c` is at least the window old
  have hold : ∀ e : Time × Dispatch,
      (∃ last, s.cooldowns e.2.cam = some last ∧ e.1 ≤ last) → e.2.cam = c →
        cooldownWindow ≤ s.clock - e.1 := by
    intro e ⟨last, hl, hle⟩ hc
    rw [hc] at hl
    rw [hl] at hpass
    simp only [onCooldown, decide_eq_false_iff_not, not_lt] at hpass
    linarith
  have hreg : ∀ e : Time × Dispatch,
      (∃ last, s.cooldowns e.2.cam = some last ∧ e.1 ≤ last) →
        ∃ last, setKey s.cooldowns c s.clock e.2.cam = some last ∧ e.1 ≤ last := by
    intro e he
    by_cases hc : e.2.cam = c
    · refine ⟨s.clock, by simp [setKey, hc], ?_⟩
      have := hold e he hc
      linarith
    · obtain ⟨last, hl, hle⟩ := he
      exact ⟨last, by simp [setKey, hc, hl], hle⟩
  have hnew : ∀ e : Time × Dispatch,
      (∃ last, s.cooldowns e.2.cam = some last ∧ e.1 ≤ last) →
        Apart e (s.clock, ⟨c, d⟩) := by
    intro e he hc
    have := hold e he hc
    exact le_trans this (le_abs_self _)
  have hipend : pending (s.threads i).pc = none := by rw [hpc]; rfl
  refine
    { mutex := ?_, checked := ?_, passed := ?_, startedReg := ?_, pendingReg := ?_,
      apartStarted := h.apartStarted, apartMixed := ?_, apartPending := ?_ }
  · intro j hj
    rw [setThread_threads] at hj
    by_cases hji : j = i
    · rw [hji]; exact h.mutex i hicrit
    · rw [if_neg hji] at hj
      exact h.mutex j hj
  · intro j c' d' e hj
    rw [setThread_threads] at hj
    by_cases hji : j = i
    · rw [if_pos hji] at hj; cases hj
    · rw [if_neg hji] at hj
      have := others j hji
      rw [hj] at this
      cases this
  · intro j c' d' hj
    rw [setThread_threads] at hj
    by_cases hji : j = i
    · rw [if_pos hji] at hj; cases hj
    · rw [if_neg hji] at hj
      have := others j hji
      rw [hj] at this
      cases this
  · intro e he
    exact hreg e (h.startedReg e he)
  · intro j e hj
    rw [setThread_threads] at hj
    by_cases hji : j = i
    · rw [if_pos hji] at hj
      simp only [pending, Option.some.injEq] at hj
      subst hj
      exact ⟨s.clock, by simp [setKey, System.setThread], le_refl _⟩
    · rw [if_neg hji] at hj
      exact hreg e (h.pendingReg j e hj)
  · intro e he j e' hj
    rw [setThread_threads] at hj
    by_cases hji : j = i
    · rw [if_pos hji] at hj
      simp only [pending, Option.some.injEq] at hj
      subst hj
      exact hnew e (h.startedReg e he)
    · rw [if_neg hji] at hj
      exact h.apartMixed e he j e' hj
  · intro j k e e' hjk hj hk
    rw [setThread_threads] at hj hk
    by_cases hji : j = i
    · have hki : k ≠ i := fun hk' => hjk (hji.trans hk'.symm)
      rw [if_pos hji] at hj
      rw [if_neg hki] at hk
      simp only [pending, Option.some.injEq] at hj
      subst hj
      exact (hnew e' (h.pendingReg k e' hk)).symm
    · rw [if_neg hji] at hj
      by_cases hki : k = i
      · rw [if_pos hki] at hk
        simp only [pending, Option.some.injEq] at hk
        subst hk
        exact hnew e (h.pendingReg j e hj)
      · rw [if_neg hki] at hk
        exact h.apartPending j k e e' hjk hj hk

/-- The `go` statement of `manager.go:80`. -/
theorem inv_spawn (s : System) (i : Nat) (c d : String) (t : Time)
    (todo : List (String × CameraStats))
    (h : Inv s) (hpc : (s.threads i).pc = Pc.spawn c d t) :
    Inv (({ s with started := s.started ++ [(t, Dispatch.mk c d)] }).setThread i
      ⟨todo, Pc.top⟩) := by
  have hipend : pending (s.threads i).pc = some (t, ⟨c, d⟩) := by rw [hpc]; rfl
  have hicrit : inCrit (s.threads i).pc = false := by rw [hpc]; rfl
  have hsub : ∀ j e, pending (if j = i then (⟨todo, Pc.top⟩ : Thread) else s.threads j).pc =
      some e → j ≠ i ∧ pending (s.threads j).pc = some e := by
    intro j e hj
    by_cases hji : j = i
    · rw [if_pos hji] at hj; cases hj
    · rw [if_neg hji] at hj; exact ⟨hji, hj⟩
  refine
    { mutex := ?_, checked := ?_, passed := ?_, startedReg := ?_, pendingReg := ?_,
      apartStarted := ?_, apartMixed := ?_, apartPending := ?_ }
  · intro j hj
    rw [setThread_threads] at hj
    by_cases hji : j = i
    · rw [if_pos hji] at hj; cases hj
    · rw [if_neg hji] at hj
      exact h.mutex j hj
  · intro j c' d' e hj
    rw [setThread_threads] at hj
    by_cases hji : j = i
    · rw [if_pos hji] at hj; cases hj
    · rw [if_neg hji] at hj
      exact h.checked j c' d' e hj
  · intro j c' d' hj
    rw [setThread_threads] at hj
    by_cases hji : j = i
    · rw [if_pos hji] at hj; cases hj
    · rw [if_neg hji] at hj
      exact h.passed j c' d' hj
  · intro e he
    change e ∈ s.started ++ [(t, Dispatch.mk c d)] at he
    simp only [List.mem_append, List.mem_singleton] at he
    rcases he with he | he
    · exact h.startedReg e he
    · subst he
      exact h.pendingReg i _ hipend
  · intro j e hj
    rw [setThread_threads] at hj
    exact h.pendingReg j e (hsub j e hj).2
  · change (s.started ++ [(t, Dispatch.mk c d)]).Pairwise Apart
    rw [List.pairwise_append]
    refine ⟨h.apartStarted, List.pairwise_singleton _ _, ?_⟩
    intro a ha b hb
    simp only [List.mem_singleton] at hb
    subst hb
    exact h.apartMixed a ha i _ hipend
  · intro e he j e' hj
    change e ∈ s.started ++ [(t, Dispatch.mk c d)] at he
    rw [setThread_threads] at hj
    obtain ⟨hji, hj'⟩ := hsub j e' hj
    simp only [List.mem_append, List.mem_singleton] at he
    rcases he with he | he
    · exact h.apartMixed e he j e' hj'
    · subst he
      exact h.apartPending i j _ e' (Ne.symm hji) hipend hj'
  · intro j k e e' hjk hj hk
    rw [setThread_threads] at hj hk
    exact h.apartPending j k e e' hjk (hsub j e hj).2 (hsub k e' hk).2

theorem act_inv (s : System) (i : Nat) (h : Inv s) : Inv (act s i) := by
  unfold act
  split
  · -- loop head
    rename_i hpc
    have hpend : ∀ e, pending Pc.top = some e → pending (s.threads i).pc = some e := by
      intro e he; cases he
    split
    · exact h
    · split
      · exact inv_setThread s i _ s.mu h (fun j _ hj => h.mutex j hj)
          (fun hc => by cases hc) (fun c d e hc => by cases hc) (fun c d hc => by cases hc)
          hpend
      · split
        · exact inv_setThread s i _ s.mu h (fun j _ hj => h.mutex j hj)
            (fun hc => by cases hc) (fun c d e hc => by cases hc) (fun c d hc => by cases hc)
            hpend
        · exact inv_setThread s i _ s.mu h (fun j _ hj => h.mutex j hj)
            (fun hc => by cases hc) (fun c d e hc => by cases hc) (fun c d hc => by cases hc)
            (fun e he => by cases he)
  · -- m.mu.Lock()
    rename_i c d hpc
    split
    · exact h
    · rename_i hmu
      refine inv_setThread s i _ (some i) h ?_ (fun _ => rfl) (fun c d e hc => by cases hc)
        (fun c d hc => by cases hc) (fun e he => by cases he)
      intro j _ hj
      have := h.mutex j hj
      rw [hmu] at this
      cases this
  · -- lookup
    rename_i c d hpc
    have hicrit : inCrit (s.threads i).pc = true := by rw [hpc]; rfl
    refine inv_setThread s i _ s.mu h (fun j _ hj => h.mutex j hj)
      (fun _ => h.mutex i hicrit) ?_ (fun c d hc => by cases hc) (fun e he => by cases he)
    intro c' d' e hc
    cases hc
    rfl
  · -- test
    rename_i c d entry hpc
    have hicrit : inCrit (s.threads i).pc = true := by rw [hpc]; rfl
    have hentry := h.checked i c d entry hpc
    split
    · exact inv_setThread s i _ s.mu h (fun j _ hj => h.mutex j hj)
        (fun _ => h.mutex i hicrit) (fun c d e hc => by cases hc) (fun c d hc => by cases hc)
        (fun e he => by cases he)
    · rename_i hcd
      refine inv_setThread s i _ s.mu h (fun j _ hj => h.mutex j hj)
        (fun _ => h.mutex i hicrit) (fun c d e hc => by cases hc) ?_
        (fun e he => by cases he)
      intro c' d' hc
      cases hc
      rw [← hentry]
      simpa using hcd
  · -- m.mu.Unlock() on the suppressed path
    rename_i c d hpc
    have hicrit : inCrit (s.threads i).pc = true := by rw [hpc]; rfl
    refine inv_setThread s i _ none h ?_ (fun hc => by cases hc) (fun c d e hc => by cases hc)
      (fun c d hc => by cases hc) (fun e he => by cases he)
    intro j hji hj
    exact absurd (h.crit_unique i j hicrit hj) hji
  · -- registry assignment
    rename_i c d hpc
    exact inv_store s i c d _ h hpc
  · -- m.mu.Unlock() on the dispatching path
    rename_i c d t hpc
    have hicrit : inCrit (s.threads i).pc = true := by rw [hpc]; rfl
    refine inv_setThread s i _ none h ?_ (fun hc => by cases hc) (fun c d e hc => by cases hc)
      (fun c d hc => by cases hc) ?_
    · intro j hji hj
      exact absurd (h.crit_unique i j hicrit hj) hji
    · intro e he
      rw [hpc]
      exact he
  · -- go statement
    rename_i c d t hpc
    exact inv_spawn s i c d t _ h hpc

theorem step_inv (s : System) (i dt : Nat) (h : Inv s) : Inv (step s i dt) :=
  act_inv (tick s dt) i (tick_inv s dt h)

theorem run_inv (sched : List (Nat × Nat)) : ∀ s : System, Inv s → Inv (run s sched) := by
  induction sched with
  | nil => intro s h; exact h
  | cons x rest ih =>
    intro s h
    obtain ⟨i, dt⟩ := x
    exact ih _ (step_inv s i dt h)

theorem initSystem_inv (unmarshal : List UInt8 → Except Error StatsPayload) (m : Manager)
    (clock : Time) (payloads : Nat → List UInt8) :
    Inv (initSystem unmarshal m clock payloads) := by
  have hpc : ∀ i, ((initSystem unmarshal m clock payloads).threads i).pc = Pc.top := by
    intro i
    simp only [initSystem]
    split <;> rfl
  refine
    { mutex := ?_, checked := ?_, passed := ?_, startedReg := ?_, pendingReg := ?_,
      apartStarted := List.Pairwise.nil, apartMixed := ?_, apartPending := ?_ }
  · intro i hi; rw [hpc i] at hi; cases hi
  · intro i c d e hi; rw [hpc i] at hi; cases hi
  · intro i c d hi; rw [hpc i] at hi; cases hi
  · intro e he; cases he
  · intro i e hi; rw [hpc i] at hi; cases hi
  · intro e he; cases he
  · intro i j e e' _ hi; rw [hpc i] at hi; cases hi

/-- The transition system agrees with the sequential loop body: a thread that
runs one iteration alone, with the mutex free and no time passing, leaves the
registry and the started goroutines as `evalCamera` computes them. -/
theorem solo_iteration (s : System) (i : Nat) (c : String) (st : CameraStats)
    (rest : List (String × CameraStats)) (hmu : s.mu = none)
    (hth : s.threads i = ⟨(c, st) :: rest, Pc.top⟩) :
    ∃ n : Nat,
      (run s (List.replicate n (i, 0))).cooldowns =
          (evalCamera s.clock ⟨s.mapping, s.cooldowns⟩ c st).1.cooldowns ∧
        (run s (List.replicate n (i, 0))).started =
          s.started ++
            (evalCamera s.clock ⟨s.mapping, s.cooldowns⟩ c st).2.map (fun d => (s.clock, d)) ∧
        (run s (List.replicate n (i, 0))).threads i = ⟨rest, Pc.top⟩ ∧
        (run s (List.replicate n (i, 0))).mu = none ∧
        (run s (List.replicate n (i, 0))).clock = s.clock := by
  by_cases hfps : st.CameraFPS > 0
  · refine ⟨1, ?_⟩
    simp [List.replicate, run, step, tick, act, System.setThread, hth, hmu, evalCamera, hfps]
  · cases hmap : s.mapping c with
    | none =>
      refine ⟨1, ?_⟩
      simp [List.replicate, run, step, tick, act, System.setThread, hth, hmu, evalCamera,
        hfps, hmap]
    | some dev =>
      cases hcd : onCooldown s.clock (s.cooldowns c) with
      | true =>
        refine ⟨5, ?_⟩
        simp [List.replicate, run, step, tick, act, System.setThread, hth, hmu, evalCamera,
          hfps, hmap, hcd]
      | false =>
        refine ⟨7, ?_⟩
        simp [List.replicate, run, step, tick, act, System.setThread, hth, hmu, evalCamera,
          hfps, hmap, hcd]

/-- C10: whatever the interleaving of overlapping invocations of the handler on
one manager, and whatever their snapshots, no two goroutines started for one
entity carry registry instants less than five minutes apart: of the invocations
that evaluate an entity within one window, at most one dispatches.  The reason
is mutual exclusion: at most one invocation at a time is between `m.mu.Lock()`
and `m.mu.Unlock()`, where the lookup, the test and the assignment are. -/
theorem race_safety (unmarshal : List UInt8 → Except Error StatsPayload) (m : Manager)
    (clock : Time) (payloads : Nat → List UInt8) (sched : List (Nat × Nat)) :
    (run (initSystem unmarshal m clock payloads) sched).started.Pairwise Apart ∧
      ∀ i j,
        inCrit ((run (initSystem unmarshal m clock payloads) sched).threads i).pc = true →
        inCrit ((run (initSystem unmarshal m clock payloads) sched).threads j).pc = true →
        j = i :=
  ⟨(run_inv sched _ (initSystem_inv unmarshal m clock payloads)).apartStarted,
    (run_inv sched _ (initSystem_inv unmarshal m clock payloads)).crit_unique⟩

theorem race_safety_witness :
    (run (initSystem sampleUnmarshal (NewManager sampleMapping) 0 samplePayloads)
        sampleSchedule).started.Pairwise Apart ∧
      (run (initSystem sampleUnmarshal (NewManager sampleMapping) 0 samplePayloads)
        sampleSchedule).started = [(8, ⟨"front", "switch-1"⟩)] ∧
      ((run (initSystem sampleUnmarshal (NewManager sampleMapping) 0 samplePayloads)
        sampleSchedule).threads 1).todo = [] ∧
      (run (initSystem sampleUnmarshal (NewManager sampleMapping) 0 samplePayloads)
        sampleSchedule).cooldowns "front" = some 8 :=
  ⟨(race_safety sampleUnmarshal (NewManager sampleMapping) 0 samplePayloads sampleSchedule).1,
    by decide, by rfl, by decide⟩

end CameraObserver
